import Mathlib

/-!
Shallow embedding of the version-resolution core of asdf
(`internal/resolve/resolve.go`).  Pure Go string helpers are modelled
directly on character lists; the process environment, the filesystem and
the external collaborators (config, plugin callbacks, pin-file parser,
installs provider) are modelled as components of an explicit `World`
record.  Go `error` values are `Option Err` with `none` standing for
`nil`; a `none` result of a whole function models a Go run-time fault
(index out of range / slice bounds) at a site where the source can fault.
-/

namespace Resolve

/-- Error payloads of fallible collaborators. -/
abbrev Err := String

/-- Splits a character list at every occurrence of the separator
character.  Always returns at least one piece; consecutive separators
yield empty pieces, as in Go. -/
def splitCh (sep : Char) : List Char → List (List Char)
  | [] => [[]]
  | c :: cs =>
    if c = sep then [] :: splitCh sep cs
    else
      match splitCh sep cs with
      | [] => [[c]]
      | p :: ps => (c :: p) :: ps

/-- Go `strings.Split s sep` for the single-character separators used by
the source (`" "` and `"."`). -/
def goSplit (sep : Char) (s : String) : List String :=
  (splitCh sep s.data).map (fun cs => ⟨cs⟩)

/-- Go `strings.HasPrefix s pre` (for valid UTF-8, byte prefixes and
character prefixes coincide). -/
def goStartsWith (s pre : String) : Bool :=
  List.isPrefixOf pre.data s.data

/-- Go `strings.TrimSpace` (restricted to ASCII whitespace). -/
def goTrimSpace (s : String) : String :=
  ⟨((s.data.dropWhile Char.isWhitespace).reverse.dropWhile Char.isWhitespace).reverse⟩

/-- Go `strings.ToUpper` (restricted to the ASCII case mapping). -/
def goToUpper (s : String) : String :=
  ⟨s.data.map Char.toUpper⟩

/-- Go `strings.Join parts sep`. -/
def goJoin (sep : String) (parts : List String) : String :=
  String.intercalate sep parts

/-- Lexicographic strict order on character lists; for valid UTF-8 this
coincides with Go's byte-wise `strings.Compare a b < 0`. -/
def lexLt : List Char → List Char → Bool
  | _, [] => false
  | [], _ :: _ => true
  | a :: as, b :: bs => if a < b then true else if b < a then false else lexLt as bs

/-- Go `strings.Compare a b < 0`. -/
def goLess (a b : String) : Bool :=
  lexLt a.data b.data

/-- Insert into a descending-sorted list, keeping it descending. -/
def insertDesc (x : String) : List String → List String
  | [] => [x]
  | y :: ys => if goLess x y then y :: insertDesc x ys else x :: y :: ys

/-- Descending lexicographic sort of strings; models
`slices.SortFunc(xs, func(a, b string) int { return -strings.Compare(a, b) })`.
On strings the descending sorted result is unique (equal keys are equal
strings), so the unstability of Go's sort is irrelevant. -/
def sortDesc : List String → List String
  | [] => []
  | x :: xs => insertDesc x (sortDesc xs)

/-- `resolve.ToolVersions`. -/
structure ToolVersions where
  Versions : List String
  Directory : String
  Source : String
  deriving DecidableEq, Repr

/-- The slice of `config.Config` the resolver reads: the pin-file name
and the fallible legacy-enablement flag `LegacyVersionFile() (bool, error)`. -/
structure Config where
  DefaultToolVersionsFilename : String
  LegacyVersionFile : Bool × Option Err

/-- The slice of `plugins.Plugin` the resolver uses: the name and the two
legacy-file callbacks, each returning a Go value-error pair. -/
structure Plugin where
  Name : String
  LegacyFilenames : List String × Option Err
  ParseLegacyVersionFile : String → List String × Option Err

/-- Ambient effects: process environment (`os.Getenv`; Go collapses unset
and empty to `""`), file existence (`os.Stat` succeeding), the external
pin-file parser `toolversions.FindToolVersions`, the home directory
(`os.UserHomeDir`; `none` models its error case), the parent operation
`path.Dir` (kept abstract: the walk only applies it and compares for
fixpoints), and the installs provider `installs.Installed conf plugin`. -/
structure World where
  getenv : String → String
  stat : String → Bool
  FindToolVersions : String → String → List String × Bool × Option Err
  UserHomeDir : Option String
  pathDir : String → String
  installed : List String × Option Err

/-- Go `path.Join dir name` for the already-clean directory paths
exercised here. -/
def pathJoin (dir file : String) : String :=
  dir ++ "/" ++ file

/-- `parseVersion`: split the raw string on single spaces, trim each
token, drop empty tokens, preserving order. -/
def parseVersion (rawVersions : String) : List String :=
  ((goSplit ' ' rawVersions).map goTrimSpace).filter (fun v => !v.data.isEmpty)

/-- `variableVersionName`. -/
def variableVersionName (toolName : String) : String :=
  "ASDF_" ++ goToUpper toolName ++ "_VERSION"

/-- `findVersionsInEnv`. -/
def findVersionsInEnv (w : World) (pluginName : String) :
    List String × String × Bool :=
  if w.getenv (variableVersionName pluginName) = "" then
    ([], variableVersionName pluginName, false)
  else
    (parseVersion (w.getenv (variableVersionName pluginName)),
     variableVersionName pluginName, true)

/-- The candidate loop of `findVersionsInLegacyFile` (lines 157-167): on
the first existing candidate file, delegate to the plugin's extractor and
stop; a degenerate extraction (`[]` or `[""]`) becomes a soft
`found = false` with a `nil` error. -/
def legacyProbe (w : World) (plugin : Plugin) (directory : String) :
    List String → ToolVersions × Bool × Option Err
  | [] => (⟨[], "", ""⟩, false, none)
  | filename :: rest =>
    if w.stat (pathJoin directory filename) then
      if (plugin.ParseLegacyVersionFile (pathJoin directory filename)).1 = []
          ∨ (plugin.ParseLegacyVersionFile (pathJoin directory filename)).1 = [""] then
        (⟨[], "", ""⟩, false, none)
      else
        (⟨(plugin.ParseLegacyVersionFile (pathJoin directory filename)).1, directory, filename⟩,
         (plugin.ParseLegacyVersionFile (pathJoin directory filename)).2.isNone,
         (plugin.ParseLegacyVersionFile (pathJoin directory filename)).2)
    else legacyProbe w plugin directory rest

/-- `findVersionsInLegacyFile`. -/
def findVersionsInLegacyFile (w : World) (plugin : Plugin) (directory : String) :
    ToolVersions × Bool × Option Err :=
  if (plugin.LegacyFilenames).2.isSome then
    (⟨[], "", ""⟩, false, (plugin.LegacyFilenames).2)
  else
    legacyProbe w plugin directory (plugin.LegacyFilenames).1

/-- The pin-file branch of `findVersionsInDir` (lines 110-117): `some r`
models the early `return`, `none` the fall-through to the legacy branch
(file absent, or present but neither found nor errored). -/
def pinLookup (w : World) (conf : Config) (plugin : Plugin) (directory : String) :
    Option (ToolVersions × Bool × Option Err) :=
  if w.stat (pathJoin directory conf.DefaultToolVersionsFilename) then
    if (w.FindToolVersions (pathJoin directory conf.DefaultToolVersionsFilename) plugin.Name).2.1
        || (w.FindToolVersions (pathJoin directory conf.DefaultToolVersionsFilename) plugin.Name).2.2.isSome then
      some (⟨(w.FindToolVersions (pathJoin directory conf.DefaultToolVersionsFilename) plugin.Name).1,
             directory, conf.DefaultToolVersionsFilename⟩,
            (w.FindToolVersions (pathJoin directory conf.DefaultToolVersionsFilename) plugin.Name).2.1,
            (w.FindToolVersions (pathJoin directory conf.DefaultToolVersionsFilename) plugin.Name).2.2)
    else none
  else none

/-- `findVersionsInDir`. -/
def findVersionsInDir (w : World) (conf : Config) (plugin : Plugin)
    (directory : String) : ToolVersions × Bool × Option Err :=
  match pinLookup w conf plugin directory with
  | some r => r
  | none =>
    if (conf.LegacyVersionFile).2.isSome then
      (⟨[], "", ""⟩, false, (conf.LegacyVersionFile).2)
    else if (conf.LegacyVersionFile).1 then
      if (findVersionsInLegacyFile w plugin directory).2.1
          || (findVersionsInLegacyFile w plugin directory).2.2.isSome then
        findVersionsInLegacyFile w plugin directory
      else (⟨[], "", ""⟩, false, none)
    else (⟨[], "", ""⟩, false, none)

/-- The upward-walk loop of `Version` (lines 34-55), fuel-indexed; `none`
marks fuel exhaustion, which cannot occur over a parent chain that
reaches a fixpoint (see the termination theorem). -/
def versionLoop (w : World) (conf : Config) (plugin : Plugin) :
    Nat → String → Option (ToolVersions × Bool × Option Err)
  | 0, _ => none
  | fuel + 1, directory =>
    if (findVersionsInDir w conf plugin directory).2.2.isSome then
      some ((findVersionsInDir w conf plugin directory).1, false,
            (findVersionsInDir w conf plugin directory).2.2)
    else if w.pathDir directory = directory then
      match w.UserHomeDir with
      | none => some (findVersionsInDir w conf plugin directory)
      | some homeDir => some (findVersionsInDir w conf plugin homeDir)
    else if (findVersionsInDir w conf plugin directory).2.1 then
      some (findVersionsInDir w conf plugin directory)
    else versionLoop w conf plugin fuel (w.pathDir directory)

/-- `Version`. -/
def Version (w : World) (conf : Config) (plugin : Plugin) (directory : String)
    (fuel : Nat) : Option (ToolVersions × Bool × Option Err) :=
  if (findVersionsInEnv w plugin.Name).2.2 then
    some (⟨(findVersionsInEnv w plugin.Name).1, "", (findVersionsInEnv w plugin.Name).2.1⟩,
          true, none)
  else versionLoop w conf plugin fuel directory

/-- The candidate scan of `FindBestMatchingVersion` (lines 88-105) over
the descending-sorted installed versions; `none` models the slice-bound
fault of `strings.Split(version, ".")[:2]` on a candidate without `"."`. -/
def bestMatchScan (name : String) (ignorePatches ignoreMinors requested : List String) :
    List String → Option String
  | [] => some ""
  | version :: rest =>
    if (ignorePatches.contains name || ignorePatches.contains "*")
        && decide ((goSplit '.' version).length < 2) then
      none
    else if (ignorePatches.contains name || ignorePatches.contains "*")
        && requested.any (fun v => goStartsWith v (goJoin "." ((goSplit '.' version).take 2))) then
      some version
    else if (ignoreMinors.contains name || ignoreMinors.contains "*")
        && requested.any (fun v => goStartsWith v ((goSplit '.' version).headD "")) then
      some version
    else
      bestMatchScan name ignorePatches ignoreMinors requested rest

/-- `FindBestMatchingVersion`, paired with the final contents of the
caller-supplied `versions` slice, which line 87 sorts in place whenever
execution reaches the candidate scan; `none` in the first component
models a run-time fault (`availableVersions[0]` on an empty slice, or a
fault inside the scan). -/
def FindBestMatchingVersionFrame (w : World) (conf : Config) (plugin : Plugin)
    (versions : List String) : Option String × List String :=
  if (w.installed).2.isSome then (some "", versions)
  else
    if ((goSplit ' ' (w.getenv "ASDF_IGNORE_VERSION")).contains plugin.Name
        || (goSplit ' ' (w.getenv "ASDF_IGNORE_VERSION")).contains "*") then
      (match sortDesc (w.installed).1 with
       | [] => none
       | v :: _ => some v, versions)
    else if (goSplit ' ' (w.getenv "ASDF_IGNORE_PATCH")).length = 0
        ∧ (goSplit ' ' (w.getenv "ASDF_IGNORE_MINOR")).length = 0 then
      (some "", versions)
    else
      (bestMatchScan plugin.Name
        (goSplit ' ' (w.getenv "ASDF_IGNORE_PATCH"))
        (goSplit ' ' (w.getenv "ASDF_IGNORE_MINOR"))
        (sortDesc versions)
        (sortDesc (w.installed).1),
       sortDesc versions)

/-- `FindBestMatchingVersion` (the returned string only). -/
def FindBestMatchingVersion (w : World) (conf : Config) (plugin : Plugin)
    (versions : List String) : Option String :=
  (FindBestMatchingVersionFrame w conf plugin versions).1

/-! ### Helper lemmas about the Go string helpers -/

theorem splitCh_ne_nil (sep : Char) : ∀ l : List Char, splitCh sep l ≠ []
  | [] => by simp [splitCh]
  | c :: cs => by
    simp only [splitCh]
    split
    · simp
    · split
      · simp
      · simp

theorem goSplit_ne_nil (sep : Char) (s : String) : goSplit sep s ≠ [] := by
  simp only [goSplit, ne_eq, List.map_eq_nil_iff]
  exact splitCh_ne_nil sep s.data

theorem lexLt_nil_right (a : List Char) : lexLt a [] = false := by
  cases a <;> rfl

theorem lexLt_asymm : ∀ a b : List Char, lexLt a b = true → lexLt b a = false
  | a, [], h => by rw [lexLt_nil_right] at h; exact absurd h (by simp)
  | [], _ :: _, _ => lexLt_nil_right _
  | a :: as, b :: bs, h => by
    simp only [lexLt] at h ⊢
    by_cases hab : a < b
    · simp [hab, asymm hab]
    · by_cases hba : b < a
      · simp [hab, hba] at h
      · simp only [hab, hba, if_false] at h ⊢
        exact lexLt_asymm as bs h

theorem lexLt_false_trans :
    ∀ a b c : List Char, lexLt a b = false → lexLt b c = false → lexLt a c = false
  | a, _, [], _, _ => lexLt_nil_right a
  | [], [], _ :: _, _, h2 => by simp [lexLt] at h2
  | [], _ :: _, _ :: _, h1, _ => by simp [lexLt] at h1
  | _ :: _, [], _ :: _, _, h2 => by simp [lexLt] at h2
  | a :: as, b :: bs, c :: cs, h1, h2 => by
    simp only [lexLt] at h1 h2 ⊢
    by_cases hab : a < b
    · simp [hab] at h1
    · by_cases hbc : b < c
      · simp [hbc] at h2
      · have hba : b ≤ a := not_lt.mp hab
        have hcb : c ≤ b := not_lt.mp hbc
        have hac : ¬ a < c := not_lt.mpr (hcb.trans hba)
        by_cases hca : c < a
        · simp [hac, hca]
        · have hab' : a = b := le_antisymm ((not_lt.mp hca).trans hcb) hba
          have hbc' : b = c := le_antisymm (hba.trans (not_lt.mp hca)) hcb
          have h1' : lexLt as bs = false := by
            have hnb : ¬ b < a := by rw [hab']; exact lt_irrefl b
            simpa [hab, hnb] using h1
          have h2' : lexLt bs cs = false := by
            have hnc : ¬ c < b := by rw [hbc']; exact lt_irrefl c
            simpa [hbc, hnc] using h2
          simp [hac, hca, lexLt_false_trans as bs cs h1' h2']

theorem goLess_asymm {a b : String} (h : goLess a b = true) : goLess b a = false :=
  lexLt_asymm a.data b.data h

theorem goLess_false_trans {a b c : String} (h1 : goLess a b = false)
    (h2 : goLess b c = false) : goLess a c = false :=
  lexLt_false_trans a.data b.data c.data h1 h2

/-! ### Helper lemmas about `insertDesc` / `sortDesc` -/

theorem insertDesc_perm (x : String) : ∀ l : List String, (insertDesc x l).Perm (x :: l)
  | [] => List.Perm.refl _
  | y :: ys => by
    simp only [insertDesc]
    split
    · exact ((insertDesc_perm x ys).cons y).trans (List.Perm.swap x y ys)
    · exact List.Perm.refl _

theorem sortDesc_perm : ∀ l : List String, (sortDesc l).Perm l
  | [] => List.Perm.refl _
  | x :: xs => (insertDesc_perm x (sortDesc xs)).trans ((sortDesc_perm xs).cons x)

theorem mem_sortDesc {a : String} {l : List String} : a ∈ sortDesc l ↔ a ∈ l :=
  (sortDesc_perm l).mem_iff

theorem sortDesc_ne_nil {l : List String} (h : l ≠ []) : sortDesc l ≠ [] := by
  intro hc
  exact h (List.eq_nil_of_length_eq_zero (by rw [← (sortDesc_perm l).length_eq, hc]; rfl))

theorem pairwise_insertDesc (x : String) :
    ∀ l : List String, l.Pairwise (fun a b => goLess a b = false) →
      (insertDesc x l).Pairwise (fun a b => goLess a b = false)
  | [], _ => List.pairwise_singleton _ x
  | y :: ys, h => by
    rcases List.pairwise_cons.mp h with ⟨hy, hys⟩
    simp only [insertDesc]
    split
    · rename_i hxy
      refine List.pairwise_cons.mpr ⟨?_, pairwise_insertDesc x ys hys⟩
      intro z hz
      rcases List.mem_cons.mp ((insertDesc_perm x ys).mem_iff.mp hz) with hz | hz
      · subst hz; exact goLess_asymm hxy
      · exact hy z hz
    · rename_i hxy
      have hxy' : goLess x y = false := by simpa using hxy
      refine List.pairwise_cons.mpr ⟨?_, h⟩
      intro z hz
      rcases List.mem_cons.mp hz with hz | hz
      · subst hz; exact hxy'
      · exact goLess_false_trans hxy' (hy z hz)

theorem sortDesc_pairwise : ∀ l : List String,
    (sortDesc l).Pairwise (fun a b => goLess a b = false)
  | [] => List.Pairwise.nil
  | x :: xs => pairwise_insertDesc x (sortDesc xs) (sortDesc_pairwise xs)

/-! ### Helper lemmas about the best-match scan -/

theorem bestMatchScan_isSome (name : String) (ip im req : List String) :
    ∀ l : List String, (∀ v ∈ l, 2 ≤ (goSplit '.' v).length) →
      (bestMatchScan name ip im req l).isSome = true
  | [], _ => rfl
  | version :: rest, h => by
    have hv : ¬ (goSplit '.' version).length < 2 :=
      not_lt.mpr (h version (List.mem_cons_self _ _))
    simp only [bestMatchScan, decide_eq_false hv, Bool.and_false, Bool.false_eq_true,
      if_false]
    split
    · rfl
    · split
      · rfl
      · exact bestMatchScan_isSome name ip im req rest
          (fun v hv' => h v (List.mem_cons_of_mem _ hv'))

theorem bestMatchScan_no_hit (name : String) (ip im req : List String)
    (hp : (ip.contains name || ip.contains "*") = false)
    (hm : (im.contains name || im.contains "*") = false) :
    ∀ l : List String, bestMatchScan name ip im req l = some ""
  | [] => rfl
  | version :: rest => by
    simp only [bestMatchScan, hp, hm, Bool.false_and, Bool.false_eq_true, if_false]
    exact bestMatchScan_no_hit name ip im req hp hm rest

/-! ### Helper lemmas about the resolver -/

theorem Version_env_not_found {w : World} {conf : Config} {plugin : Plugin}
    {directory : String} {fuel : Nat}
    (h : w.getenv (variableVersionName plugin.Name) = "") :
    Version w conf plugin directory fuel = versionLoop w conf plugin fuel directory := by
  simp [Version, findVersionsInEnv, h]

theorem legacyProbe_first_existing (w : World) (plugin : Plugin) (directory : String)
    (f : String) (post : List String) :
    ∀ pre : List String, (∀ g ∈ pre, w.stat (pathJoin directory g) = false) →
      w.stat (pathJoin directory f) = true →
      legacyProbe w plugin directory (pre ++ f :: post) =
        if (plugin.ParseLegacyVersionFile (pathJoin directory f)).1 = []
            ∨ (plugin.ParseLegacyVersionFile (pathJoin directory f)).1 = [""] then
          (⟨[], "", ""⟩, false, none)
        else
          (⟨(plugin.ParseLegacyVersionFile (pathJoin directory f)).1, directory, f⟩,
           (plugin.ParseLegacyVersionFile (pathJoin directory f)).2.isNone,
           (plugin.ParseLegacyVersionFile (pathJoin directory f)).2)
  | [], _, hf => by
    simp only [List.nil_append, legacyProbe, hf, if_true]
  | g :: pre, hpre, hf => by
    have hg : w.stat (pathJoin directory g) = false := hpre g (List.mem_cons_self g _)
    simp only [List.cons_append, legacyProbe, hg, Bool.false_eq_true, if_false]
    exact legacyProbe_first_existing w plugin directory f post pre
      (fun x hx => hpre x (List.mem_cons_of_mem g hx)) hf

theorem legacyProbe_found_versions (w : World) (plugin : Plugin) (directory : String) :
    ∀ names : List String, (legacyProbe w plugin directory names).2.1 = true →
      (legacyProbe w plugin directory names).1.Versions ≠ []
  | [], h => by simp [legacyProbe] at h
  | f :: rest, h => by
    by_cases hs : w.stat (pathJoin directory f) = true
    · simp only [legacyProbe, hs, if_true] at h ⊢
      by_cases hdeg : (plugin.ParseLegacyVersionFile (pathJoin directory f)).1 = []
          ∨ (plugin.ParseLegacyVersionFile (pathJoin directory f)).1 = [""]
      · rw [if_pos hdeg] at h
        simp at h
      · rw [if_neg hdeg]
        exact fun hc => hdeg (Or.inl hc)
    · simp only [legacyProbe, if_neg hs] at h ⊢
      exact legacyProbe_found_versions w plugin directory rest h

theorem versionLoop_root_home (w : World) (conf : Config) (plugin : Plugin) :
    ∀ (n : Nat) (directory : String),
      (∀ k, k ≤ n → findVersionsInDir w conf plugin ((w.pathDir)^[k] directory)
        = (⟨[], "", ""⟩, false, none)) →
      w.pathDir ((w.pathDir)^[n] directory) = (w.pathDir)^[n] directory →
      ∀ fuel : Nat, versionLoop w conf plugin (fuel + n + 1) directory =
        some (match w.UserHomeDir with
              | none => ((⟨[], "", ""⟩ : ToolVersions), false, (none : Option Err))
              | some homeDir => findVersionsInDir w conf plugin homeDir)
  | 0, directory, hwalk, hroot, fuel => by
    have h0 := hwalk 0 (le_refl 0)
    rw [Function.iterate_zero_apply] at h0
    rw [Function.iterate_zero_apply] at hroot
    cases hh : w.UserHomeDir with
    | none => simp [versionLoop, h0, hroot, hh]
    | some homeDir => simp [versionLoop, h0, hroot, hh]
  | n + 1, directory, hwalk, hroot, fuel => by
    have h0 := hwalk 0 (Nat.zero_le _)
    rw [Function.iterate_zero_apply] at h0
    by_cases hfix : w.pathDir directory = directory
    · cases hh : w.UserHomeDir with
      | none => simp [versionLoop, h0, hfix, hh]
      | some homeDir => simp [versionLoop, h0, hfix, hh]
    · have hnext : ∀ k, k ≤ n →
          findVersionsInDir w conf plugin ((w.pathDir)^[k] (w.pathDir directory))
            = (⟨[], "", ""⟩, false, none) := by
        intro k hk
        rw [← Function.iterate_succ_apply]
        exact hwalk (k + 1) (Nat.succ_le_succ hk)
      have hroot' : w.pathDir ((w.pathDir)^[n] (w.pathDir directory))
          = (w.pathDir)^[n] (w.pathDir directory) := by
        rw [← Function.iterate_succ_apply]
        exact hroot
      have harith : fuel + (n + 1) + 1 = (fuel + n + 1) + 1 := by omega
      rw [harith]
      simp only [versionLoop, h0, hfix, Option.isSome_none, Bool.false_eq_true, if_false]
      exact versionLoop_root_home w conf plugin n (w.pathDir directory) hnext hroot' fuel

theorem versionLoop_terminates (w : World) (conf : Config) (plugin : Plugin) :
    ∀ (n : Nat) (directory : String),
      w.pathDir ((w.pathDir)^[n] directory) = (w.pathDir)^[n] directory →
      ∀ fuel : Nat, n + 1 ≤ fuel →
        (versionLoop w conf plugin fuel directory).isSome = true
  | n, directory, hroot, fuel, hfuel => by
    obtain ⟨f, rfl⟩ : ∃ f, fuel = f + 1 := ⟨fuel - 1, by omega⟩
    by_cases herr : (findVersionsInDir w conf plugin directory).2.2.isSome = true
    · simp [versionLoop, herr]
    · by_cases hfix : w.pathDir directory = directory
      · cases hh : w.UserHomeDir with
        | none => simp [versionLoop, herr, hfix, hh]
        | some homeDir => simp [versionLoop, herr, hfix, hh]
      · by_cases hfound : (findVersionsInDir w conf plugin directory).2.1 = true
        · simp [versionLoop, herr, hfix, hfound]
        · match n with
          | 0 =>
            rw [Function.iterate_zero_apply] at hroot
            exact absurd hroot hfix
          | m + 1 =>
            have hroot' : w.pathDir ((w.pathDir)^[m] (w.pathDir directory))
                = (w.pathDir)^[m] (w.pathDir directory) := by
              rw [← Function.iterate_succ_apply]
              exact hroot
            simp only [versionLoop, Bool.not_eq_true] at herr hfound ⊢
            simp only [herr, hfix, hfound, Option.isSome_none, Bool.false_eq_true,
              if_false]
            exact versionLoop_terminates w conf plugin m (w.pathDir directory) hroot' f
              (by omega)

theorem versionLoop_fuel_irrelevant (w : World) (conf : Config) (plugin : Plugin) :
    ∀ (n : Nat) (directory : String),
      w.pathDir ((w.pathDir)^[n] directory) = (w.pathDir)^[n] directory →
      ∀ fuel : Nat, n + 1 ≤ fuel →
        versionLoop w conf plugin fuel directory = versionLoop w conf plugin (n + 1) directory
  | n, directory, hroot, fuel, hfuel => by
    obtain ⟨f, rfl⟩ : ∃ f, fuel = f + 1 := ⟨fuel - 1, by omega⟩
    by_cases herr : (findVersionsInDir w conf plugin directory).2.2.isSome = true
    · simp [versionLoop, herr]
    · by_cases hfix : w.pathDir directory = directory
      · cases hh : w.UserHomeDir with
        | none => simp [versionLoop, herr, hfix, hh]
        | some homeDir => simp [versionLoop, herr, hfix, hh]
      · by_cases hfound : (findVersionsInDir w conf plugin directory).2.1 = true
        · simp [versionLoop, herr, hfix, hfound]
        · match n with
          | 0 =>
            rw [Function.iterate_zero_apply] at hroot
            exact absurd hroot hfix
          | m + 1 =>
            have hroot' : w.pathDir ((w.pathDir)^[m] (w.pathDir directory))
                = (w.pathDir)^[m] (w.pathDir directory) := by
              rw [← Function.iterate_succ_apply]
              exact hroot
            simp only [versionLoop, Bool.not_eq_true] at herr hfound ⊢
            simp only [herr, hfix, hfound, Option.isSome_none, Bool.false_eq_true,
              if_false]
            exact versionLoop_fuel_irrelevant w conf plugin m (w.pathDir directory) hroot' f
              (by omega)

theorem contains_split_empty {n : String} (h : n ≠ "") :
    ((goSplit ' ' "").contains n) = false := by
  rw [show goSplit ' ' "" = [""] from rfl]
  simp [h]

/-! ### Concrete worlds, configs and plugins used by counterexamples and witnesses -/

/-- Baseline world: empty environment, no files, no home directory,
`path.Dir` the identity (every directory is its own root), nothing
installed.  The worlds below override individual fields. -/
def w0 : World where
  getenv := fun _ => ""
  stat := fun _ => false
  FindToolVersions := fun _ _ => ([], false, none)
  UserHomeDir := none
  pathDir := fun d => d
  installed := ([], none)

/-- Config with the conventional pin-file name and legacy files disabled. -/
def conf0 : Config where
  DefaultToolVersionsFilename := ".tool-versions"
  LegacyVersionFile := (false, none)

/-- Config with legacy files enabled. -/
def conf1 : Config where
  DefaultToolVersionsFilename := ".tool-versions"
  LegacyVersionFile := (true, none)

/-- A plugin with no legacy-file behaviour. -/
def plugNamed (n : String) : Plugin where
  Name := n
  LegacyFilenames := ([], none)
  ParseLegacyVersionFile := fun _ => ([], none)

/-- Plugin whose legacy extractor fails returning an empty slice,
the conventional Go error shape. -/
def plug1 : Plugin where
  Name := "nodejs"
  LegacyFilenames := ([".nvmrc"], none)
  ParseLegacyVersionFile := fun _ => ([], some "parse failure")

/-- World for the C1 counterexample: only `/proj/.nvmrc` exists. -/
def w1 : World := { w0 with stat := fun p => p = "/proj/.nvmrc" }

/-- World for the C1 witness: the pin file exists and its parse errors. -/
def w1p : World :=
  { w0 with
    stat := fun p => p = "/p/.tool-versions"
    FindToolVersions := fun _ _ => (["1.2.3"], true, some "bad pin") }

/-- World for the C2 counterexample: nothing installed, ignore-version
set for all plugins. -/
def w2 : World :=
  { w0 with getenv := fun n => if n = "ASDF_IGNORE_VERSION" then "*" else "" }

/-- World for the C2 witness: two versions installed, ignore-patch set. -/
def w2w : World :=
  { w0 with
    getenv := fun n => if n = "ASDF_IGNORE_PATCH" then "nodejs" else ""
    installed := (["14.2.1", "14.3.0"], none) }

/-- World for the C3 counterexample: plugin `p` is in both ignore lists
and `2.1.0` is installed. -/
def w3 : World :=
  { w0 with
    getenv := fun n =>
      if n = "ASDF_IGNORE_PATCH" then "p" else if n = "ASDF_IGNORE_MINOR" then "p" else ""
    installed := (["2.1.0"], none) }

/-- World for the C4 counterexample: the override variable is all spaces. -/
def w4 : World :=
  { w0 with getenv := fun n => if n = "ASDF_NODEJS_VERSION" then " " else "" }

/-- World for the C5 counterexample and witness: no ignore variable set,
one version installed. -/
def w5 : World := { w0 with installed := (["1.0.0"], none) }

/-- World for the C6 witness: the override variable holds two tokens. -/
def w6 : World :=
  { w0 with getenv := fun n => if n = "ASDF_NODEJS_VERSION" then "16.0.0 18.0.0" else "" }

/-- Plugin for the C7 witness: two legacy candidates, the second exists. -/
def plug7 : Plugin where
  Name := "nodejs"
  LegacyFilenames := (["a.txt", ".nvmrc"], none)
  ParseLegacyVersionFile := fun p => if p = "/d/.nvmrc" then (["18"], none) else ([], none)

/-- World for the C7 witness: only `/d/.nvmrc` exists. -/
def w7 : World := { w0 with stat := fun p => p = "/d/.nvmrc" }

/-- World for the C8 witness: nothing pinned anywhere on the walk, the
home directory holds a pin file. -/
def w8 : World :=
  { w0 with
    stat := fun p => p = "/home/u/.tool-versions"
    FindToolVersions := fun _ _ => (["7"], true, none)
    UserHomeDir := some "/home/u"
    pathDir := fun _ => "/" }

/-- World for the C9 witness: every parent is the root. -/
def w9 : World := { w0 with pathDir := fun _ => "/" }

/-- World for the C10 witness: ignore-patch set so the scan is reached. -/
def w10 : World :=
  { w0 with
    getenv := fun n => if n = "ASDF_IGNORE_PATCH" then "nodejs" else ""
    installed := (["1.0.0"], none) }

/-! ### C1: propagation of hard errors through `Version` -/

/-- C1 counterexample: directory `/proj` holds the legacy file `.nvmrc`,
legacy lookup is enabled, and `ParseLegacyVersionFile` returns the error
`"parse failure"` together with an empty slice; `Version` nevertheless
reports the soft outcome `found = false` with a `nil` error, so a
`ParseLegacyVersionFile` error IS sometimes reported as a soft
`found=false`, nil-error outcome, refuting the claim as stated. -/
theorem claim1_counterexample :
    conf1.LegacyVersionFile = (true, none)
    ∧ plug1.LegacyFilenames = ([".nvmrc"], none)
    ∧ w1.stat (pathJoin "/proj" ".nvmrc") = true
    ∧ plug1.ParseLegacyVersionFile (pathJoin "/proj" ".nvmrc") = ([], some "parse failure")
    ∧ Version w1 conf1 plug1 "/proj" 1 = some (⟨[], "", ""⟩, false, none) := by
  decide

/-- C1 (amended): pin-file parse errors, legacy-enablement-flag query
errors, and `LegacyFilenames` errors propagate unmodified through
`Version`; a `ParseLegacyVersionFile` error propagates unmodified when
the returned slice is non-degenerate, but when the extractor returns an
error together with a degenerate slice (`[]` or `[""]`), the probe masks
the error and reports `found = false` with a `nil` error. -/
theorem claim1_error_propagation (w : World) (conf : Config) (plugin : Plugin)
    (directory : String) (fuel : Nat)
    (henv : w.getenv (variableVersionName plugin.Name) = "") :
    (∀ vs fnd e,
      w.stat (pathJoin directory conf.DefaultToolVersionsFilename) = true →
      w.FindToolVersions (pathJoin directory conf.DefaultToolVersionsFilename) plugin.Name
        = (vs, fnd, some e) →
      Version w conf plugin directory (fuel + 1)
        = some (⟨vs, directory, conf.DefaultToolVersionsFilename⟩, false, some e))
    ∧ (∀ b e,
      w.stat (pathJoin directory conf.DefaultToolVersionsFilename) = false →
      conf.LegacyVersionFile = (b, some e) →
      Version w conf plugin directory (fuel + 1) = some (⟨[], "", ""⟩, false, some e))
    ∧ (∀ ns e,
      w.stat (pathJoin directory conf.DefaultToolVersionsFilename) = false →
      conf.LegacyVersionFile = (true, none) →
      plugin.LegacyFilenames = (ns, some e) →
      Version w conf plugin directory (fuel + 1) = some (⟨[], "", ""⟩, false, some e))
    ∧ (∀ f vs e,
      w.stat (pathJoin directory conf.DefaultToolVersionsFilename) = false →
      conf.LegacyVersionFile = (true, none) →
      plugin.LegacyFilenames = ([f], none) →
      w.stat (pathJoin directory f) = true →
      plugin.ParseLegacyVersionFile (pathJoin directory f) = (vs, some e) →
      vs ≠ [] → vs ≠ [""] →
      Version w conf plugin directory (fuel + 1) = some (⟨vs, directory, f⟩, false, some e))
    ∧ (∀ f vs e,
      plugin.LegacyFilenames = ([f], none) →
      w.stat (pathJoin directory f) = true →
      plugin.ParseLegacyVersionFile (pathJoin directory f) = (vs, some e) →
      (vs = [] ∨ vs = [""]) →
      findVersionsInLegacyFile w plugin directory = (⟨[], "", ""⟩, false, none)) := by
  refine ⟨?_, ?_, ?_, ?_, ?_⟩
  · intro vs fnd e hstat hftv
    have hdir : findVersionsInDir w conf plugin directory
        = (⟨vs, directory, conf.DefaultToolVersionsFilename⟩, fnd, some e) := by
      simp [findVersionsInDir, pinLookup, hstat, hftv]
    rw [Version_env_not_found henv]
    simp [versionLoop, hdir]
  · intro b e hstat hflag
    have hdir : findVersionsInDir w conf plugin directory = (⟨[], "", ""⟩, false, some e) := by
      simp [findVersionsInDir, pinLookup, hstat, hflag]
    rw [Version_env_not_found henv]
    simp [versionLoop, hdir]
  · intro ns e hstat hflag hlf
    have hdir : findVersionsInDir w conf plugin directory = (⟨[], "", ""⟩, false, some e) := by
      simp [findVersionsInDir, pinLookup, findVersionsInLegacyFile, hstat, hflag, hlf]
    rw [Version_env_not_found henv]
    simp [versionLoop, hdir]
  · intro f vs e hstat hflag hlf hstatf hparse hne1 hne2
    have hleg : findVersionsInLegacyFile w plugin directory
        = (⟨vs, directory, f⟩, false, some e) := by
      simp [findVersionsInLegacyFile, legacyProbe, hlf, hstatf, hparse, hne1, hne2]
    have hdir : findVersionsInDir w conf plugin directory = (⟨vs, directory, f⟩, false, some e) := by
      simp [findVersionsInDir, pinLookup, hstat, hflag, hleg]
    rw [Version_env_not_found henv]
    simp [versionLoop, hdir]
  · intro f vs e hlf hstatf hparse hdeg
    simp only [findVersionsInLegacyFile, hlf, Option.isSome_none, Bool.false_eq_true,
      if_false, legacyProbe, hstatf, if_true, hparse]
    rw [if_pos hdeg]

/-- C1 witness: a concrete pin-file parse failure propagates. -/
theorem claim1_witness :
    Version w1p conf0 (plugNamed "nodejs") "/p" 1
      = some (⟨["1.2.3"], "/p", ".tool-versions"⟩, false, some "bad pin") := by
  exact (claim1_error_propagation w1p conf0 (plugNamed "nodejs") "/p" 0 (by decide)).1
    ["1.2.3"] true "bad pin" (by decide) (by decide)

/-! ### C2: totality of `FindBestMatchingVersion` -/

/-- C2 counterexample: with nothing installed and `ASDF_IGNORE_VERSION`
set to `"*"`, the source indexes `availableVersions[0]` on an empty
slice (a Go run-time fault, modelled `none`), so the function is not
total as claimed. -/
theorem claim2_counterexample :
    w2.installed = ([], none)
    ∧ w2.getenv "ASDF_IGNORE_VERSION" = "*"
    ∧ FindBestMatchingVersion w2 conf0 (plugNamed "nodejs") ["1.0.0"] = none := by
  decide

/-- C2 (amended): `FindBestMatchingVersion` returns a string without
failing whenever the installed-version list is non-empty and every
installed version contains a `"."`; outside those conditions it can hit
a Go run-time fault (`availableVersions[0]` on an empty slice under the
ignore-version rule, or the `[:2]` slice bound under the ignore-patch
rule on a dot-less candidate). -/
theorem claim2_total (w : World) (conf : Config) (plugin : Plugin) (versions : List String)
    (hne : (w.installed).1 ≠ [])
    (hdot : ∀ v ∈ (w.installed).1, 2 ≤ (goSplit '.' v).length) :
    (FindBestMatchingVersion w conf plugin versions).isSome = true := by
  by_cases hins : (w.installed).2.isSome = true
  · simp [FindBestMatchingVersion, FindBestMatchingVersionFrame, hins]
  · simp only [FindBestMatchingVersion, FindBestMatchingVersionFrame, if_neg hins]
    split_ifs with hIV hLen
    · rcases hsd : sortDesc (w.installed).1 with _ | ⟨v, rest⟩
      · exact absurd hsd (sortDesc_ne_nil hne)
      · simp [hsd]
    · simp
    · exact bestMatchScan_isSome _ _ _ _ _ (fun v hv => hdot v (mem_sortDesc.mp hv))

/-- C2 witness: with versions installed and ignore-patch set, the
function returns a value. -/
theorem claim2_witness :
    (FindBestMatchingVersion w2w conf0 (plugNamed "nodejs") ["14.3.5"]).isSome = true := by
  exact claim2_total w2w conf0 (plugNamed "nodejs") ["14.3.5"] (by decide) (by decide)

/-! ### C3: interaction of the ignore-patch and ignore-minor rules -/

/-- C3 counterexample: plugin `p` is in both ignore lists; the installed
candidate `2.1.0` fails the ignore-patch (major.minor) test against the
requested `2.5.0`, yet the scan goes on to apply the ignore-minor
(major) test to the same candidate and returns `2.1.0` instead of
moving on, refuting the claim that major-only matching is skipped. -/
theorem claim3_counterexample :
    ((goSplit ' ' (w3.getenv "ASDF_IGNORE_PATCH")).contains "p") = true
    ∧ ((goSplit ' ' (w3.getenv "ASDF_IGNORE_MINOR")).contains "p") = true
    ∧ goStartsWith "2.5.0" "2.1" = false
    ∧ w3.installed = (["2.1.0"], none)
    ∧ FindBestMatchingVersion w3 conf0 (plugNamed "p") ["2.5.0"] = some "2.1.0"
    ∧ FindBestMatchingVersion w3 conf0 (plugNamed "p") ["2.5.0"] ≠ some "" := by
  decide

/-- C3 (amended): the two rules are applied independently to each
candidate: when the plugin is covered by the ignore-patch list but no
requested version starts with the candidate's major.minor, the scan
still applies the ignore-minor (major-only) rule to that same candidate
when the plugin is covered by the ignore-minor list, and returns the
candidate on a major match. -/
theorem claim3_rules_independent (name : String) (ip im req : List String)
    (version : String) (rest : List String)
    (hp : (ip.contains name || ip.contains "*") = true)
    (hlen : 2 ≤ (goSplit '.' version).length)
    (hmm : req.any (fun v => goStartsWith v (goJoin "." ((goSplit '.' version).take 2))) = false)
    (hm : (im.contains name || im.contains "*") = true)
    (hmj : req.any (fun v => goStartsWith v ((goSplit '.' version).headD "")) = true) :
    bestMatchScan name ip im req (version :: rest) = some version := by
  simp only [bestMatchScan, hp, hmm, hm, hmj, decide_eq_false (not_lt.mpr hlen),
    Bool.and_false, Bool.and_true, Bool.true_and, Bool.false_eq_true, if_false, if_true]

/-- C3 witness: the amended behaviour at concrete inputs. -/
theorem claim3_witness :
    bestMatchScan "p" ["p"] ["p"] ["2.5.0"] ["2.1.0"] = some "2.1.0" := by
  exact claim3_rules_independent "p" ["p"] ["p"] ["2.5.0"] "2.1.0" []
    (by decide) (by decide) (by decide) (by decide) (by decide)

/-! ### C4: `found = true` versus empty `Versions` -/

/-- C4 counterexample: with `ASDF_NODEJS_VERSION` set to a single space,
the environment lookup reports `found = true` while the filtered token
sequence is empty, so an empty `Versions` does occur with `found = true`,
refuting the claim. -/
theorem claim4_counterexample :
    w4.getenv "ASDF_NODEJS_VERSION" = " "
    ∧ Version w4 conf0 (plugNamed "nodejs") "/x" 1
        = some (⟨[], "", "ASDF_NODEJS_VERSION"⟩, true, none) := by
  decide

/-- C4 (amended): the legacy-file probe never reports `found = true`
with an empty `Versions` sequence; the environment lookup (and hence
`Version`'s environment path) can report `found = true` with empty
`Versions` when the variable's value is non-empty but consists only of
whitespace. -/
theorem claim4_legacy_found_nonempty (w : World) (plugin : Plugin) (directory : String)
    (h : (findVersionsInLegacyFile w plugin directory).2.1 = true) :
    (findVersionsInLegacyFile w plugin directory).1.Versions ≠ [] := by
  unfold findVersionsInLegacyFile at h ⊢
  split at h
  · simp at h
  · rw [if_neg (by assumption)]
    exact legacyProbe_found_versions w plugin directory _ h

/-- C4 witness: a found legacy probe has non-empty versions. -/
theorem claim4_witness :
    (findVersionsInLegacyFile w7 plug7 "/d").2.1 = true
    ∧ (findVersionsInLegacyFile w7 plug7 "/d").1.Versions ≠ [] := by
  refine ⟨by decide, claim4_legacy_found_nonempty w7 plug7 "/d" (by decide)⟩

/-! ### C5: behaviour with no ignore variables set -/

/-- C5 counterexample: with no ignore variable set, splitting the empty
string yields `[""]`, so a plugin whose name is the empty string is a
member of the ignore-version list and the greatest installed version is
returned instead of the empty string, refuting the universally
quantified claim. -/
theorem claim5_counterexample :
    w5.getenv "ASDF_IGNORE_PATCH" = ""
    ∧ w5.getenv "ASDF_IGNORE_MINOR" = ""
    ∧ w5.getenv "ASDF_IGNORE_VERSION" = ""
    ∧ FindBestMatchingVersion w5 conf0 (plugNamed "") ["9.9.9"] = some "1.0.0" := by
  decide

/-- C5 (amended): when none of `ASDF_IGNORE_PATCH`, `ASDF_IGNORE_MINOR`,
`ASDF_IGNORE_VERSION` is set, `FindBestMatchingVersion` returns the
empty string for every plugin whose name is non-empty, every
requested-version list and every installed-version list; the plugin with
the empty name is the sole exception (it matches the `[""]` ignore
lists). -/
theorem claim5_no_ignore_env (w : World) (conf : Config) (plugin : Plugin)
    (versions : List String)
    (hp : w.getenv "ASDF_IGNORE_PATCH" = "")
    (hm : w.getenv "ASDF_IGNORE_MINOR" = "")
    (hv : w.getenv "ASDF_IGNORE_VERSION" = "")
    (hname : plugin.Name ≠ "") :
    FindBestMatchingVersion w conf plugin versions = some "" := by
  by_cases hins : (w.installed).2.isSome = true
  · simp [FindBestMatchingVersion, FindBestMatchingVersionFrame, hins]
  · have hcv : ((goSplit ' ' (w.getenv "ASDF_IGNORE_VERSION")).contains plugin.Name
        || (goSplit ' ' (w.getenv "ASDF_IGNORE_VERSION")).contains "*") = false := by
      rw [hv, contains_split_empty hname]
      rw [show ((goSplit ' ' "").contains "*") = false from by decide]
      rfl
    have hcp : ((goSplit ' ' (w.getenv "ASDF_IGNORE_PATCH")).contains plugin.Name
        || (goSplit ' ' (w.getenv "ASDF_IGNORE_PATCH")).contains "*") = false := by
      rw [hp, contains_split_empty hname]
      rw [show ((goSplit ' ' "").contains "*") = false from by decide]
      rfl
    have hcm : ((goSplit ' ' (w.getenv "ASDF_IGNORE_MINOR")).contains plugin.Name
        || (goSplit ' ' (w.getenv "ASDF_IGNORE_MINOR")).contains "*") = false := by
      rw [hm, contains_split_empty hname]
      rw [show ((goSplit ' ' "").contains "*") = false from by decide]
      rfl
    have hlen : ¬ ((goSplit ' ' (w.getenv "ASDF_IGNORE_PATCH")).length = 0
        ∧ (goSplit ' ' (w.getenv "ASDF_IGNORE_MINOR")).length = 0) := by
      rintro ⟨h1, _⟩
      exact goSplit_ne_nil ' ' _ (List.length_eq_zero.mp h1)
    simp only [FindBestMatchingVersion, FindBestMatchingVersionFrame, if_neg hins, hcv,
      Bool.false_eq_true, if_false, if_neg hlen]
    exact bestMatchScan_no_hit plugin.Name _ _ _ hcp hcm _

/-- C5 witness: the amended statement at a concrete world. -/
theorem claim5_witness :
    FindBestMatchingVersion w5 conf0 (plugNamed "nodejs") ["1.0.0"] = some "" := by
  exact claim5_no_ignore_env w5 conf0 (plugNamed "nodejs") ["1.0.0"]
    (by decide) (by decide) (by decide) (by decide)

/-! ### C6: the environment resolver -/

/-- C6: the lookup reads `"ASDF_" + uppercase(P) + "_VERSION"`; an unset
or empty value yields `found = false` (still reporting the variable
name); otherwise `Version` returns immediately with the raw value split
on single spaces, tokens trimmed, empty tokens discarded, `Source` the
variable name, `Directory` empty, and a result independent of every
filesystem-facing component of the world (no directory walk and no
filesystem access) — `found = true` even when the filtered sequence is
empty. -/
theorem claim6_env_resolver (w : World) (conf : Config) (plugin : Plugin)
    (directory : String) (fuel : Nat) :
    variableVersionName plugin.Name = "ASDF_" ++ goToUpper plugin.Name ++ "_VERSION"
    ∧ (w.getenv (variableVersionName plugin.Name) = "" →
        findVersionsInEnv w plugin.Name = ([], variableVersionName plugin.Name, false))
    ∧ (w.getenv (variableVersionName plugin.Name) ≠ "" →
        Version w conf plugin directory fuel =
          some (⟨parseVersion (w.getenv (variableVersionName plugin.Name)), "",
                 variableVersionName plugin.Name⟩, true, none))
    ∧ (w.getenv (variableVersionName plugin.Name) ≠ "" →
        ∀ w' : World, w'.getenv = w.getenv →
          Version w' conf plugin directory fuel = Version w conf plugin directory fuel) := by
  refine ⟨rfl, ?_, ?_, ?_⟩
  · intro h
    simp [findVersionsInEnv, h]
  · intro h
    simp [Version, findVersionsInEnv, h]
  · intro h w' hg
    have h' : w'.getenv (variableVersionName plugin.Name) ≠ "" := by rw [hg]; exact h
    simp [Version, findVersionsInEnv, h, h', hg]

/-- C6 witness: a set override resolves from the environment alone. -/
theorem claim6_witness :
    Version w6 conf0 (plugNamed "nodejs") "/x" 3
      = some (⟨parseVersion (w6.getenv (variableVersionName (plugNamed "nodejs").Name)), "",
               variableVersionName (plugNamed "nodejs").Name⟩, true, none)
    ∧ parseVersion (w6.getenv (variableVersionName (plugNamed "nodejs").Name))
        = ["16.0.0", "18.0.0"] := by
  refine ⟨(claim6_env_resolver w6 conf0 (plugNamed "nodejs") "/x" 3).2.2.1 (by decide),
    by decide⟩

/-! ### C7: the legacy-file prober stops at the first existing candidate -/

/-- C7: when the candidate list is obtained without error, the probe
stops at the first candidate that exists in the directory (the result
does not depend on later candidates); a degenerate extraction (`[]` or
`[""]`) yields `found = false` with no error, and otherwise the probe
reports `found` exactly when the extraction error is `nil`, with the
extracted tokens, `Source` the filename and `Directory` the directory. -/
theorem claim7_legacy_prober (w : World) (plugin : Plugin) (directory : String)
    (pre post : List String) (f : String)
    (hnames : plugin.LegacyFilenames = (pre ++ f :: post, none))
    (hpre : ∀ g ∈ pre, w.stat (pathJoin directory g) = false)
    (hf : w.stat (pathJoin directory f) = true) :
    findVersionsInLegacyFile w plugin directory =
      if (plugin.ParseLegacyVersionFile (pathJoin directory f)).1 = []
          ∨ (plugin.ParseLegacyVersionFile (pathJoin directory f)).1 = [""] then
        (⟨[], "", ""⟩, false, none)
      else
        (⟨(plugin.ParseLegacyVersionFile (pathJoin directory f)).1, directory, f⟩,
         (plugin.ParseLegacyVersionFile (pathJoin directory f)).2.isNone,
         (plugin.ParseLegacyVersionFile (pathJoin directory f)).2) := by
  simp only [findVersionsInLegacyFile, hnames, Option.isSome_none, Bool.false_eq_true,
    if_false]
  exact legacyProbe_first_existing w plugin directory f post pre hpre hf

/-- C7 witness: the second candidate is the first existing one and its
extraction is returned. -/
theorem claim7_witness :
    findVersionsInLegacyFile w7 plug7 "/d" = (⟨["18"], "/d", ".nvmrc"⟩, true, none) := by
  rw [claim7_legacy_prober w7 plug7 "/d" ["a.txt"] [] ".nvmrc" (by decide) (by decide)
    (by decide)]
  decide

/-! ### C8: root exhaustion and the home-directory fallback -/

/-- C8: when the walk reaches a directory that is its own parent without
having found a result or errored, `Version` probes the home directory
exactly once through the same `findVersionsInDir` logic and returns that
probe's result; when the home directory cannot be determined it returns
`found = false` with a `nil` error. -/
theorem claim8_home_fallback (w : World) (conf : Config) (plugin : Plugin)
    (directory : String) (n fuel : Nat)
    (henv : w.getenv (variableVersionName plugin.Name) = "")
    (hwalk : ∀ k, k ≤ n → findVersionsInDir w conf plugin ((w.pathDir)^[k] directory)
      = (⟨[], "", ""⟩, false, none))
    (hroot : w.pathDir ((w.pathDir)^[n] directory) = (w.pathDir)^[n] directory) :
    Version w conf plugin directory (fuel + n + 1) =
      some (match w.UserHomeDir with
            | none => ((⟨[], "", ""⟩ : ToolVersions), false, (none : Option Err))
            | some homeDir => findVersionsInDir w conf plugin homeDir) := by
  rw [Version_env_not_found henv]
  exact versionLoop_root_home w conf plugin n directory hwalk hroot fuel

/-- C8 witness: a two-step walk exhausts at the root and the home
directory's pin file is returned. -/
theorem claim8_witness :
    Version w8 conf0 (plugNamed "nodejs") "/a" 2
      = some (⟨["7"], "/home/u", ".tool-versions"⟩, true, none) := by
  have h := claim8_home_fallback w8 conf0 (plugNamed "nodejs") "/a" 1 0
    (by decide) (by decide) (by decide)
  exact h

/-! ### C9: termination of the walk -/

/-- C9: over any world whose parent operation reaches a fixpoint after
`n` steps from the starting directory, `Version` terminates: with any
fuel beyond the chain depth the loop produces a definite result (never
the fuel-exhaustion marker), and the result no longer depends on the
fuel, the home-directory probe being a single non-recursive
`findVersionsInDir` call. -/
theorem claim9_termination (w : World) (conf : Config) (plugin : Plugin)
    (directory : String) (n : Nat)
    (hroot : w.pathDir ((w.pathDir)^[n] directory) = (w.pathDir)^[n] directory) :
    ∀ fuel, n + 1 ≤ fuel →
      (Version w conf plugin directory fuel).isSome = true
      ∧ Version w conf plugin directory fuel = Version w conf plugin directory (n + 1) := by
  intro fuel hfuel
  by_cases henv : (findVersionsInEnv w plugin.Name).2.2 = true
  · constructor <;> simp [Version, henv]
  · have he : ¬ ((findVersionsInEnv w plugin.Name).2.2 = true) := henv
    constructor
    · simp only [Version, if_neg he]
      exact versionLoop_terminates w conf plugin n directory hroot fuel hfuel
    · simp only [Version, if_neg he]
      exact versionLoop_fuel_irrelevant w conf plugin n directory hroot fuel hfuel

/-- C9 witness: a concrete two-level hierarchy terminates with any
sufficient fuel. -/
theorem claim9_witness :
    (Version w9 conf0 (plugNamed "nodejs") "/a/b" 5).isSome = true := by
  exact ((claim9_termination w9 conf0 (plugNamed "nodejs") "/a/b" 1 (by decide)) 5
    (by decide)).1

/-! ### C10: the caller's requested-version slice is sorted in place -/

/-- C10: whenever execution reaches the candidate scan (installed
enumeration succeeded and the ignore-version rule did not fire), the
caller-supplied `versions` slice ends up equal to `sortDesc versions`: a
permutation of its original contents arranged in descending
lexicographic order, so the caller's slice may be reordered; the
installed list that is also sorted comes from the installs provider, not
from a caller argument. -/
theorem claim10_sorts_requested (w : World) (conf : Config) (plugin : Plugin)
    (versions : List String)
    (hins : (w.installed).2 = none)
    (hiv : ((goSplit ' ' (w.getenv "ASDF_IGNORE_VERSION")).contains plugin.Name
        || (goSplit ' ' (w.getenv "ASDF_IGNORE_VERSION")).contains "*") = false) :
    (FindBestMatchingVersionFrame w conf plugin versions).2 = sortDesc versions
    ∧ (sortDesc versions).Perm versions
    ∧ (sortDesc versions).Pairwise (fun a b => goLess a b = false) := by
  refine ⟨?_, sortDesc_perm versions, sortDesc_pairwise versions⟩
  have hlen : ¬ (goSplit ' ' (w.getenv "ASDF_IGNORE_PATCH") = []
      ∧ goSplit ' ' (w.getenv "ASDF_IGNORE_MINOR") = []) := by
    rintro ⟨h1, _⟩
    exact goSplit_ne_nil ' ' _ h1
  have hiv' : ¬ (plugin.Name ∈ goSplit ' ' (w.getenv "ASDF_IGNORE_VERSION")
      ∨ "*" ∈ goSplit ' ' (w.getenv "ASDF_IGNORE_VERSION")) := by
    simp only [Bool.or_eq_false_iff] at hiv
    have h1 : ¬ plugin.Name ∈ goSplit ' ' (w.getenv "ASDF_IGNORE_VERSION") := by
      have := hiv.1
      simp at this
      exact this
    have h2 : ¬ ("*" : String) ∈ goSplit ' ' (w.getenv "ASDF_IGNORE_VERSION") := by
      have := hiv.2
      simp at this
      exact this
    exact not_or.mpr ⟨h1, h2⟩
  simp [FindBestMatchingVersionFrame, hins, hiv', hlen]

/-- C10 witness: a concrete call reorders the caller's slice. -/
theorem claim10_witness :
    (FindBestMatchingVersionFrame w10 conf0 (plugNamed "nodejs") ["1.0.0", "2.0.0"]).2
      = ["2.0.0", "1.0.0"]
    ∧ ["2.0.0", "1.0.0"] ≠ ["1.0.0", "2.0.0"] := by
  have h := (claim10_sorts_requested w10 conf0 (plugNamed "nodejs") ["1.0.0", "2.0.0"]
    (by decide) (by decide)).1
  rw [h]
  constructor
  · decide
  · decide

end Resolve
